import Mathlib

set_option maxRecDepth 4000

/-!
Shallow embedding of the adaptive pricing decision engine of the
pricelabs-auto repository (the `PricingStrategy` class of the strategy
module plus the `saveChangesToLog` ledger writer of the bot entry point).

Conventions of the embedding:
* JavaScript numbers are modelled as exact rationals (`ℚ`);
  `Math.round` becomes `jround q = ⌊q + 1/2⌋`, which is the JavaScript
  rounding rule (round half toward positive infinity).
* Calendar dates are day numbers.  The wall-clock instant read by
  `new Date()` is an explicit environment field `Env.now : ℚ` measured in
  days (it can sit strictly between two midnights); a ledger date `d`
  parsed from a `YYYY-MM-DD` string is the exact midnight `(d : ℚ)`, and
  the source comparison `adjustmentDate >= sevenDaysAgo` becomes
  `(d : ℚ) ≥ now - 7`.  `new Date().toISOString().split('T')[0]`, today's
  date string, is `Env.today = ⌊now⌋`.  `new Date().getDay()` is the
  explicit field `Env.dayOfWeek`.
* The union of JavaScript values reaching `parseOccupancyRate`
  (number / string / null / undefined) is the inductive `JsVal`.
* The mutable `propertyStats` Map and `currentChanges` array of the class
  become the explicit state record `StratState`, threaded functionally.
* File I/O in the two persist routines is modelled by passing the parsed
  on-disk content in and injecting write success/failure as a boolean;
  the data each path would write is returned as a `SaveOutcome`.
-/

namespace PricelabsAuto

/-- JavaScript values that can reach the occupancy normalizer: a number,
a string, `null`, or `undefined`. -/
inductive JsVal where
  | jnull
  | jundef
  | jnum (q : ℚ)
  | jstr (s : String)
  deriving DecidableEq

/-- Value of the decimal digit list of a numeric token, accumulated left to
right exactly as `parseFloat` reads consecutive digits. -/
def digitsVal (l : List Char) : ℕ :=
  l.foldl (fun a c => a * 10 + (c.toNat - ('0').toNat)) 0

/-- Splits a character list into its leading run of decimal digits and the
remainder. -/
def takeDigits : List Char → List Char × List Char
  | [] => ([], [])
  | c :: cs =>
    if c.isDigit then
      let p := takeDigits cs
      (c :: p.1, p.2)
    else ([], c :: cs)

/-- Exact rational value of a decimal token with integer digits `ds` and
fractional digits `fs`. -/
def tokenValue (ds fs : List Char) : ℚ :=
  (digitsVal ds : ℚ) + (digitsVal fs : ℚ) / (10 : ℚ) ^ fs.length

/-- Scans for the first match of the regular expression
`(\d+(\.\d+)?)%?` used by `parseOccupancyRate` and returns the exact value
of capture group 1 (`parseFloat(match[1])`): the first maximal digit run,
extended by a fractional part only when a dot followed by at least one
digit comes right after it. -/
def findTokenAux : List Char → Option ℚ
  | [] => none
  | c :: cs =>
    if c.isDigit then
      let p := takeDigits (c :: cs)
      let fs :=
        match p.2 with
        | '.' :: cs2 => (takeDigits cs2).1
        | _ => []
      some (tokenValue p.1 fs)
    else findTokenAux cs

/-- First numeric token of a string, as matched by `(\d+(\.\d+)?)%?`. -/
def firstNumToken (s : String) : Option ℚ :=
  findTokenAux s.toList

/-- `parseOccupancyRate` from the strategy module: `null`, `undefined`,
`"N/A"` and the empty string give 0; a number above 1 is divided by 100
and otherwise returned as is; a string is searched for its first numeric
token, whose value is divided by 100 (no match gives 0). -/
def parseOccupancyRate : JsVal → ℚ
  | .jnull => 0
  | .jundef => 0
  | .jnum q => if q > 1 then q / 100 else q
  | .jstr s =>
    if s = "N/A" ∨ s = "" then 0
    else
      match firstNumToken s with
      | none => 0
      | some v => v / 100

/-- The three raw occupancy fields `7_day_occ`, `30_day_occ`,
`60_day_occ` of a scraped occupancy object. -/
structure OccInputs where
  seven : JsVal
  thirty : JsVal
  sixty : JsVal
  deriving DecidableEq

/-- `config.occupancyWeights`. -/
structure Weights where
  sevenDay : ℚ
  thirtyDay : ℚ
  sixtyDay : ℚ
  deriving DecidableEq

/-- `config.occupancyThresholds`. -/
structure Thresholds where
  high : ℚ
  medium : ℚ
  low : ℚ
  critical : ℚ
  deriving DecidableEq

/-- The configuration surface the strategy module reads.  The weight and
threshold objects are optional because the source falls back to defaults
with `||` when they are absent. -/
structure StratConfig where
  strategy : String
  occupancyWeights : Option Weights
  occupancyThresholds : Option Thresholds
  increasePercentage : ℚ
  decreasePercentage : ℚ
  oscillationPercentage : ℚ
  deriving DecidableEq

/-- One entry of `stats.adjustmentHistory`.  `percentChange` is optional:
records rebuilt from the ledger by `analyzeHistoricalData` do not carry it,
records appended during a run do; no reader of the field exists besides
the run-time append, so the option is never scrutinised. -/
structure AdjustmentRecord where
  date : ℤ
  strategy : String
  percentChange : Option ℚ
  minPricePercentChange : ℚ
  basePricePercentChange : ℚ
  deriving DecidableEq

/-- A before/after price pair. -/
structure PricePair where
  before : ℚ
  after : ℚ
  deriving DecidableEq

/-- One entry of `stats.priceHistory`. -/
structure PriceEntry where
  date : ℤ
  minPrice : PricePair
  basePrice : PricePair
  deriving DecidableEq

/-- One entry of `stats.occupancyHistory` (already normalized by
`parseOccupancyRate`, hence plain rationals). -/
structure OccEntry where
  date : ℤ
  sevenDay : ℚ
  thirtyDay : ℚ
  sixtyDay : ℚ
  deriving DecidableEq

/-- The per-property aggregate stored in the `propertyStats` map. -/
structure PropertyStats where
  occupancyHistory : List OccEntry
  priceHistory : List PriceEntry
  adjustmentHistory : List AdjustmentRecord
  lastOscillationDirection : Option ℚ
  lastUpdate : Option ℤ
  deriving DecidableEq

/-- One entry of the `currentChanges` buffer (and of the persisted
ledger's `changes` array). -/
structure ChangeEntry where
  url : String
  date : ℤ
  occupancy : OccInputs
  minPrice : Option PricePair
  basePrice : Option PricePair
  deriving DecidableEq

/-- The mutable state owned by a `PricingStrategy` instance: the
`propertyStats` Map (association list keyed by property URL, keys unique)
and the `currentChanges` buffer. -/
structure StratState where
  propertyStats : List (String × PropertyStats)
  currentChanges : List ChangeEntry
  deriving DecidableEq

/-- The `priceType` argument; the callers pass exactly the strings
`"min"` and `"base"`. -/
inductive PriceType where
  | min
  | base
  deriving DecidableEq

/-- Ambient clock readings made by the source: the current instant in
days (`new Date()`) and the current day of week 0..6 (`getDay()`). -/
structure Env where
  now : ℚ
  dayOfWeek : ℕ
  deriving DecidableEq

/-- Today's calendar date, `new Date().toISOString().split('T')[0]`. -/
def Env.today (e : Env) : ℤ := ⌊e.now⌋

/-- `this.propertyStats.get(url)` on an association list. -/
def lookupStats (url : String) : List (String × PropertyStats) → Option PropertyStats
  | [] => none
  | kv :: rest => if kv.1 = url then some kv.2 else lookupStats url rest

/-- `this.propertyStats.has(url)` / `get(url)` on the engine state. -/
def findStats (st : StratState) (url : String) : Option PropertyStats :=
  lookupStats url st.propertyStats

/-- In-place mutation of the stats object held under `url` in the Map
(keys are unique, so rewriting the first binding models `Map.get` plus
field assignment). -/
def updateStats (f : PropertyStats → PropertyStats) (url : String) :
    List (String × PropertyStats) → List (String × PropertyStats)
  | [] => []
  | kv :: rest =>
    if kv.1 = url then (kv.1, f kv.2) :: rest
    else kv :: updateStats f url rest

/-- `stats.lastOscillationDirection = p` guarded by
`this.propertyStats.has(propertyUrl)`. -/
def setLastOsc (st : StratState) (url : String) (p : ℚ) : StratState :=
  { st with propertyStats :=
      updateStats (fun s => { s with lastOscillationDirection := some p }) url st.propertyStats }

/-- Fallback weights `{ sevenDay: 0.6, thirtyDay: 0.3, sixtyDay: 0.1 }`. -/
def defaultWeights : Weights := ⟨0.6, 0.3, 0.1⟩

/-- Fallback thresholds
`{ high: 0.85, medium: 0.50, low: 0.40, critical: 0.20 }`. -/
def defaultThresholds : Thresholds := ⟨0.85, 0.5, 0.4, 0.2⟩

/-- `this.config.occupancyWeights || defaults`. -/
def weightsOf (cfg : StratConfig) : Weights :=
  cfg.occupancyWeights.getD defaultWeights

/-- `this.config.occupancyThresholds || defaults`. -/
def thresholdsOf (cfg : StratConfig) : Thresholds :=
  cfg.occupancyThresholds.getD defaultThresholds

/-- The weighted average occupancy computed identically in
`getPropertyStrategy` and `calculateAdjustedPrice`. -/
def weightedOccOf (cfg : StratConfig) (occ : OccInputs) : ℚ :=
  parseOccupancyRate occ.seven * (weightsOf cfg).sevenDay +
  parseOccupancyRate occ.thirty * (weightsOf cfg).thirtyDay +
  parseOccupancyRate occ.sixty * (weightsOf cfg).sixtyDay

/-- Accumulator of the backwards walk over recent adjustments in
`getPropertyStrategy`: consecutive increases/decreases, their cumulative
magnitudes, and the trailing-7-day positive/negative base-price sums. -/
structure GuardAcc where
  ci : ℕ
  cd : ℕ
  cumInc : ℚ
  cumDec : ℚ
  sdi : ℚ
  sdd : ℚ
  deriving DecidableEq

/-- One iteration of the backwards loop of `getPropertyStrategy`:
first the trailing-7-day base-price sums are updated for the record,
then the consecutive-run bookkeeping; the boolean is whether the loop
continues (the source `break`s on a direction clash or on any record that
is neither a proper increase nor a proper decrease). -/
def guardStep (env : Env) (a : AdjustmentRecord) (acc : GuardAcc) : GuardAcc × Bool :=
  let acc1 :=
    if (a.date : ℚ) ≥ env.now - 7 then
      if a.basePricePercentChange > 0 then
        { acc with sdi := acc.sdi + a.basePricePercentChange }
      else if a.basePricePercentChange < 0 then
        { acc with sdd := acc.sdd + |a.basePricePercentChange| }
      else acc
    else acc
  if a.strategy = "increase" ∧ (a.minPricePercentChange > 0 ∨ a.basePricePercentChange > 0) then
    let acc2 := { acc1 with
      ci := acc1.ci + 1,
      cumInc := acc1.cumInc + max a.minPricePercentChange a.basePricePercentChange }
    (acc2, if acc2.cd > 0 then false else true)
  else if a.strategy = "decrease" ∧ (a.minPricePercentChange < 0 ∨ a.basePricePercentChange < 0) then
    let acc2 := { acc1 with
      cd := acc1.cd + 1,
      cumDec := acc1.cumDec + |min a.minPricePercentChange a.basePricePercentChange| }
    (acc2, if acc2.ci > 0 then false else true)
  else (acc1, false)

/-- The backwards loop itself, fed the recent adjustments most recent
first. -/
def guardLoop (env : Env) : List AdjustmentRecord → GuardAcc → GuardAcc
  | [], acc => acc
  | a :: rest, acc =>
    let p := guardStep env a acc
    if p.2 then guardLoop env rest p.1 else p.1

/-- The guard accumulator for a property: the source takes
`adjustmentHistory.slice(-7)` (the last up-to-7 records) and walks it from
the most recent backwards.  Without stats (or with an empty history) every
counter stays 0. -/
def guardOf (env : Env) (st : StratState) (url : String) : GuardAcc :=
  match findStats st url with
  | none => ⟨0, 0, 0, 0, 0, 0⟩
  | some stats =>
    guardLoop env
      ((stats.adjustmentHistory.drop (stats.adjustmentHistory.length - 7)).reverse)
      ⟨0, 0, 0, 0, 0, 0⟩

/-- `calculateOccupancyTrend`: with fewer than 2 entries the trend is 0;
otherwise the history is sorted most recent first (the JavaScript
comparator `new Date(b) - new Date(a)`, stable) and the difference of the
two most recent 7-day values is returned in percentage points. -/
def calculateOccupancyTrend (h : List OccEntry) : ℚ :=
  if h.length < 2 then 0
  else
    match h.mergeSort (fun a b => decide (b.date ≤ a.date)) with
    | a :: b :: _ => (a.sevenDay - b.sevenDay) * 100
    | _ => 0

/-- `getPropertyStrategy`: the anti-whiplash guard is evaluated first and
forces `"hold"`; then the occupancy ladder picks a strategy, refining via
the trend when historical stats exist, and falling back to the configured
default strategy otherwise. -/
def getPropertyStrategy (cfg : StratConfig) (env : Env) (st : StratState)
    (url : String) (occ : OccInputs) : String :=
  let c7 := parseOccupancyRate occ.seven
  let th := thresholdsOf cfg
  let w := weightedOccOf cfg occ
  let g := guardOf env st url
  if g.cumInc ≥ 3 ∨ g.sdi ≥ 4 ∨ g.cd ≥ 3 then "hold"
  else if c7 ≥ th.high then "increase"
  else if w < th.low ∧ c7 < th.medium then "decrease"
  else
    match findStats st url with
    | some stats =>
      let t := calculateOccupancyTrend stats.occupancyHistory
      if t > 5 ∨ c7 > 0.7 then "increase"
      else if t < -3 ∨ w < 0.45 then "decrease"
      else "hold"
    | none => cfg.strategy

/-- The per-record percent-change field `calculateAdjustedPrice` reads for
the given price type. -/
def changeToUse (ptype : PriceType) (a : AdjustmentRecord) : ℚ :=
  match ptype with
  | .min => a.minPricePercentChange
  | .base => a.basePricePercentChange

/-- Contribution of one history record to the trailing-7-day positive sum
of `calculateAdjustedPrice`. -/
def sevenDayContrib (env : Env) (ptype : PriceType) (a : AdjustmentRecord) : ℚ :=
  if (a.date : ℚ) ≥ env.now - 7 then
    if changeToUse ptype a > 0 then changeToUse ptype a else 0
  else 0

/-- The trailing-7-day positive percent-change sum of
`calculateAdjustedPrice` (the loop over the full `adjustmentHistory`). -/
def sevenDayIncrease (env : Env) (ptype : PriceType) (hist : List AdjustmentRecord) : ℚ :=
  (hist.map (sevenDayContrib env ptype)).sum

/-- The trailing-7-day positive sum for the property held in the state
(0 when the property has no stats entry, exactly as the uninitialised
`sevenDayIncrease` variable stays 0 in the source). -/
def sevenDayIncreaseOf (env : Env) (ptype : PriceType) (st : StratState) (url : String) : ℚ :=
  match findStats st url with
  | some stats => sevenDayIncrease env ptype stats.adjustmentHistory
  | none => 0

/-- `stats.lastOscillationDirection` for the property, `null` when absent
or when the property has no stats entry. -/
def lastOscOf (st : StratState) (url : String) : Option ℚ :=
  match findStats st url with
  | some stats => stats.lastOscillationDirection
  | none => none

/-- The pre-cap magnitude of the `"increase"` branch: the configured
increase percentage scaled by occupancy level. -/
def increaseProposed (cfg : StratConfig) (o7 : ℚ) (th : Thresholds) : ℚ :=
  if o7 ≥ 0.95 then cfg.increasePercentage * 1.5
  else if o7 ≥ th.high then cfg.increasePercentage * 1.2
  else cfg.increasePercentage

/-- The `"increase"` branch of the switch: propose, cap the trailing-7-day
positive sum at 5, and replace a capped magnitude below 1 by a −1
oscillation. -/
def increaseAdjustment (cfg : StratConfig) (o7 : ℚ) (th : Thresholds) (s : ℚ) : ℚ :=
  let base := increaseProposed cfg o7 th
  if s + base > 5 then
    let n := max 0 (5 - s)
    if n < 1 then -1 else n
  else base

/-- The `"decrease"` branch of the switch. -/
def decreaseAdjustment (cfg : StratConfig) (o7 o30 w : ℚ) (th : Thresholds) : ℚ :=
  if w < th.critical then -cfg.decreasePercentage * 1.5
  else if o7 < 0.3 ∧ o30 < th.low then -cfg.decreasePercentage * 1.2
  else -cfg.decreasePercentage

/-- The oscillation direction of the hold branch: opposite of the stored
direction, defaulting upward when none was stored. -/
def holdDir (lastOsc : Option ℚ) : ℚ :=
  match lastOsc with
  | none => 1
  | some d => if d > 0 then -1 else 1

/-- The oscillation magnitude of the hold branch: the configured
percentage, weekend-scaled by 1.2 upward or 0.8 downward. -/
def holdMag (cfg : StratConfig) (dayOfWeek : ℕ) (dir : ℚ) : ℚ :=
  if dayOfWeek = 0 ∨ dayOfWeek = 6 then
    if dir > 0 then cfg.oscillationPercentage * 1.2
    else cfg.oscillationPercentage * 0.8
  else cfg.oscillationPercentage

/-- The `"hold"` branch of the switch: inside `[low, high]` an
oscillation whose direction opposes the stored one (defaulting upward),
weekend-scaled, with positive oscillations near the 4.5 trailing limit
flipped to −1; below `low` a 0.7-scaled decrease; above `high` a
0.7-scaled increase capped at the 5 trailing limit. -/
def holdAdjustment (cfg : StratConfig) (dayOfWeek : ℕ) (lastOsc : Option ℚ)
    (s w : ℚ) (th : Thresholds) : ℚ :=
  if th.low ≤ w ∧ w ≤ th.high then
    let dir := holdDir lastOsc
    let mag := holdMag cfg dayOfWeek dir
    let p := dir * mag
    if p > 0 ∧ s + p > 4.5 then -1 else p
  else if w < th.low then -cfg.decreasePercentage * 0.7
  else
    let p := cfg.increasePercentage * 0.7
    if s + p > 5 then max 0 (5 - s) else p

/-- The strategy dispatch of `calculateAdjustedPrice` up to and including
the switch: `none` is the `default:` case (return the current price
untouched, no recording); otherwise the chosen strategy, the signed
adjustment percentage, and the state after the oscillation-direction store
of the hold branch. -/
def adjustmentDecision (cfg : StratConfig) (env : Env) (st : StratState)
    (url : String) (occ : OccInputs) (ptype : PriceType) :
    Option (String × ℚ × StratState) :=
  let strategy := getPropertyStrategy cfg env st url occ
  let o7 := parseOccupancyRate occ.seven
  let o30 := parseOccupancyRate occ.thirty
  let th := thresholdsOf cfg
  let w := weightedOccOf cfg occ
  if strategy = "increase" then
    some ("increase", increaseAdjustment cfg o7 th (sevenDayIncreaseOf env ptype st url), st)
  else if strategy = "decrease" then
    some ("decrease", decreaseAdjustment cfg o7 o30 w th, st)
  else if strategy = "hold" then
    let p := holdAdjustment cfg env.dayOfWeek (lastOscOf st url)
      (sevenDayIncreaseOf env ptype st url) w th
    if th.low ≤ w ∧ w ≤ th.high then some ("hold", p, setLastOsc st url p)
    else some ("hold", p, st)
  else none

/-- `priceType === "min" ? ... : ...` when writing a change entry. -/
def setPriceField (ptype : PriceType) (pair : PricePair) (e : ChangeEntry) : ChangeEntry :=
  match ptype with
  | .min => { e with minPrice := some pair }
  | .base => { e with basePrice := some pair }

/-- The fresh change entry pushed when the property has no entry in the
current run's buffer yet. -/
def newChangeEntry (url : String) (env : Env) (occ : OccInputs)
    (ptype : PriceType) (pair : PricePair) : ChangeEntry :=
  setPriceField ptype pair
    { url := url, date := env.today, occupancy := occ, minPrice := none, basePrice := none }

/-- The upsert into `currentChanges`: mutate the first entry with this
URL, or push a new entry at the end. -/
def upsertChange (url : String) (ptype : PriceType) (pair : PricePair)
    (env : Env) (occ : OccInputs) : List ChangeEntry → List ChangeEntry
  | [] => [newChangeEntry url env occ ptype pair]
  | e :: rest =>
    if e.url = url then setPriceField ptype pair e :: rest
    else e :: upsertChange url ptype pair env occ rest

/-- The adjustment record appended to `stats.adjustmentHistory` during a
run: today's date, the strategy, the applied percentage, mirrored into the
field of the adjusted price type (the other field is 0). -/
def mkAdjRecord (env : Env) (ptype : PriceType) (strat : String) (pct : ℚ) : AdjustmentRecord :=
  { date := env.today, strategy := strat, percentChange := some pct,
    minPricePercentChange := if ptype = .min then pct else 0,
    basePricePercentChange := if ptype = .base then pct else 0 }

/-- The recording step of `calculateAdjustedPrice`, guarded by
`this.propertyStats.has(propertyUrl)`: append the adjustment record and
upsert the change entry with the (pre-clamp) adjusted price. -/
def recordAdjustment (env : Env) (ptype : PriceType) (strat : String) (pct : ℚ)
    (price adjusted : ℚ) (occ : OccInputs) (url : String) (st : StratState) : StratState :=
  match findStats st url with
  | none => st
  | some _ =>
    { propertyStats :=
        updateStats (fun s =>
          { s with adjustmentHistory := s.adjustmentHistory ++ [mkAdjRecord env ptype strat pct] })
          url st.propertyStats,
      currentChanges := upsertChange url ptype ⟨price, adjusted⟩ env occ st.currentChanges }

/-- JavaScript `Math.round`. -/
def jround (q : ℚ) : ℤ := ⌊q + 1 / 2⌋

/-- The final min-price floor of `calculateAdjustedPrice`: for a min-price
adjustment on a property with a price history, the returned price may not
exceed `Math.round(0.8 * most recent base-price after-value)`
(`priceHistory[0]`, given the most-recent-first ledger convention). -/
def clampMin (st2 : StratState) (url : String) (adjusted : ℤ) (ptype : PriceType) : ℚ :=
  if ptype = .min then
    match findStats st2 url with
    | some stats =>
      match stats.priceHistory with
      | recent :: _ =>
        let minAllowed := jround (recent.basePrice.after * 0.8)
        if adjusted > minAllowed then (minAllowed : ℚ) else (adjusted : ℚ)
      | [] => (adjusted : ℚ)
    | none => (adjusted : ℚ)
  else (adjusted : ℚ)

/-- `calculateAdjustedPrice`: dispatch on the strategy (the `default:`
case returns the current price with no state change), round the adjusted
price, record it, and apply the min-price floor last.  Returns the price
handed back to the caller and the state after the call. -/
def calculateAdjustedPrice (cfg : StratConfig) (env : Env) (st : StratState)
    (url : String) (price : ℚ) (occ : OccInputs) (ptype : PriceType) : ℚ × StratState :=
  match adjustmentDecision cfg env st url occ ptype with
  | none => (price, st)
  | some (strat, pct, st1) =>
    let adjusted : ℤ := jround (price + price * (pct / 100))
    let st2 := recordAdjustment env ptype strat pct price (adjusted : ℚ) occ url st1
    (clampMin st2 url adjusted ptype, st2)

/-- The `{ lastRun, changes }` shape of the persisted ledger file. -/
structure LedgerData where
  lastRun : ℤ
  changes : List ChangeEntry
  deriving DecidableEq

/-- The two on-disk shapes tolerated when reading the ledger back: a
single run object or an array of run objects. -/
inductive LedgerFile where
  | single (d : LedgerData)
  | runs (l : List LedgerData)
  deriving DecidableEq

/-- What a persist routine ended up writing: the merged ledger to the main
file, a backup file, or nothing. -/
inductive SaveOutcome where
  | mainWritten (d : LedgerData)
  | backupWritten (d : LedgerData)
  | noWrite
  deriving DecidableEq

/-- Whether an outcome is a backup write. -/
def isBackup : SaveOutcome → Bool
  | .backupWritten _ => true
  | _ => false

/-- The `changes` array of a parsed ledger, empty when the file is missing
or unreadable. -/
def ledgerChanges : Option LedgerData → List ChangeEntry
  | none => []
  | some d => d.changes

/-- The merged ledger `saveChangesToLog` (bot entry point) builds before
writing: new changes prepended, the list trimmed to the newest 1000 when
it exceeds 1000, `lastRun` set to today. -/
def saveChangesToLogData (existing : Option LedgerData) (newChanges : List ChangeEntry)
    (today : ℤ) : LedgerData :=
  let merged := newChanges ++ ledgerChanges existing
  { lastRun := today,
    changes := if merged.length > 1000 then merged.take 1000 else merged }

/-- `saveChangesToLog` with its write failure handling: on main-file write
failure the catch block writes `{ lastRun: today, changes: newChanges }`
to a dated backup file; if that write also fails only the error is logged. -/
def saveChangesToLogRun (existing : Option LedgerData) (newChanges : List ChangeEntry)
    (today : ℤ) (mainOk backupOk : Bool) : SaveOutcome :=
  if mainOk then .mainWritten (saveChangesToLogData existing newChanges today)
  else if backupOk then .backupWritten { lastRun := today, changes := newChanges }
  else .noWrite

/-- `saveChanges` of the strategy module: nothing happens with an empty
buffer; an array-shaped file is collapsed to its first run; the buffered
changes are prepended, `lastRun` set to today, and the result written with
no trimming; on success the buffer is cleared, on write failure the catch
block only logs — no backup file, buffer kept. -/
def saveChangesRun (st : StratState) (existingFile : Option LedgerFile)
    (writeOk : Bool) (today : ℤ) : SaveOutcome × StratState :=
  if st.currentChanges = [] then (.noWrite, st)
  else
    let existingData : LedgerData :=
      match existingFile with
      | none => { lastRun := today, changes := [] }
      | some (.single d) => d
      | some (.runs l) =>
        match l with
        | [] => { lastRun := today, changes := [] }
        | r :: _ => r
    let merged : LedgerData := { lastRun := today, changes := st.currentChanges ++ existingData.changes }
    if writeOk then (.mainWritten merged, { st with currentChanges := [] })
    else (.noWrite, st)

/-! Concrete instances used by witnesses and counterexamples. -/

/-- A property URL used in concrete scenarios. -/
def uProp : String := "u"

/-- A weekday environment: `now` exactly at midnight of day 20000,
day-of-week Tuesday. -/
def envT : Env := ⟨20000, 2⟩

/-- Occupancy high enough for the very-high increase scaling. -/
def occHigh : OccInputs := ⟨JsVal.jnum 0.96, JsVal.jnum 0.9, JsVal.jnum 0.9⟩

/-- Occupancy in the middle of the healthy band. -/
def occMid : OccInputs := ⟨JsVal.jnum 0.5, JsVal.jnum 0.5, JsVal.jnum 0.5⟩

/-- All-null occupancy. -/
def occNull : OccInputs := ⟨JsVal.jnull, JsVal.jnull, JsVal.jnull⟩

/-- A configuration with default-strategy hold, increase 2%, decrease 2%,
oscillation 1%. -/
def cfgA : StratConfig := ⟨"hold", none, none, 2, 2, 1⟩

/-- A configuration with increase 3%. -/
def cfgB : StratConfig := ⟨"hold", none, none, 3, 2, 1⟩

/-- The empty engine state (cold start). -/
def emptyState : StratState := ⟨[], []⟩

/-- A stats record with no history at all. -/
def statsEmpty : PropertyStats := ⟨[], [], [], none, none⟩

/-- A state knowing one property with empty histories. -/
def stOneEmpty : StratState := ⟨[(uProp, statsEmpty)], []⟩

/-- A price-history entry whose base price settled at 100. -/
def priceE : PriceEntry := ⟨19990, ⟨100, 100⟩, ⟨100, 100⟩⟩

/-- Stats with one price-history record and nothing else. -/
def statsWithPrice : PropertyStats := ⟨[], [priceE], [], none, none⟩

/-- A state knowing one property with a recorded base price of 100. -/
def stWithPrice : StratState := ⟨[(uProp, statsWithPrice)], []⟩

/-- A decrease adjustment record. -/
def decRec : AdjustmentRecord := ⟨19999, "decrease", none, -2, 0⟩

/-- Stats whose history is three consecutive decreases. -/
def statsThreeDec : PropertyStats := ⟨[], [], [decRec, decRec, decRec], none, none⟩

/-- A state whose one property just had three consecutive decreases. -/
def stThreeDec : StratState := ⟨[(uProp, statsThreeDec)], []⟩

/-- A change entry used to fill ledgers in counterexamples. -/
def e0 : ChangeEntry := ⟨uProp, 0, occNull, none, none⟩

/-! ## Helper lemmas -/

theorem tokenValue_nonneg (ds fs : List Char) : 0 ≤ tokenValue ds fs := by
  unfold tokenValue
  positivity

theorem findTokenAux_nonneg : ∀ (l : List Char) (v : ℚ), findTokenAux l = some v → 0 ≤ v := by
  intro l
  induction l with
  | nil => intro v h; simp [findTokenAux] at h
  | cons c cs ih =>
    intro v h
    simp only [findTokenAux] at h
    by_cases hc : c.isDigit
    · rw [if_pos hc] at h
      rw [Option.some.injEq] at h
      rw [← h]
      exact tokenValue_nonneg _ _
    · rw [if_neg hc] at h
      exact ih v h

theorem firstNumToken_nonneg (s : String) (v : ℚ) (h : firstNumToken s = some v) : 0 ≤ v :=
  findTokenAux_nonneg _ _ h

theorem firstNumToken_special_ne (s : String) (v : ℚ) (h : firstNumToken s = some v) :
    ¬(s = "N/A" ∨ s = "") := by
  rintro (hs | hs) <;> subst hs
  · rw [show firstNumToken ("N/A") = none from by with_unfolding_all rfl] at h
    exact Option.noConfusion h
  · rw [show firstNumToken ("") = none from by with_unfolding_all rfl] at h
    exact Option.noConfusion h

theorem parseOccupancyRate_token (s : String) (v : ℚ) (h : firstNumToken s = some v) :
    parseOccupancyRate (.jstr s) = v / 100 := by
  simp only [parseOccupancyRate]
  rw [if_neg (firstNumToken_special_ne s v h), h]

/-! ## Claim C3 -/

/-- C3, counterexample: the claim says `parseOccupancyRate` returns a
decimal in `[0,1]` for every accepted input, but the number 150 is mapped
to 1.5, which exceeds 1. -/
theorem c3_normalizer_counterexample :
    parseOccupancyRate (.jnum 150) = 3 / 2 ∧ ¬ parseOccupancyRate (.jnum 150) ≤ 1 := by
  constructor
  · with_unfolding_all rfl
  · rw [show parseOccupancyRate (.jnum 150) = 3 / 2 from by with_unfolding_all rfl]
    norm_num

/-- C3, amended: the five stated normalizations hold, and the result lies
in `[0,1]` for numeric inputs in `[0,100]` and for strings whose leading
numeric token is at most 100; a string with no numeric token normalizes
to 0.  (Numeric inputs above 100, and strings whose token exceeds 100,
are mapped outside `[0,1]`, so the unconditional range claim fails.) -/
theorem c3_normalizer_amended :
    (parseOccupancyRate .jnull = 0 ∧ parseOccupancyRate .jundef = 0 ∧
     parseOccupancyRate (.jstr ("N/A")) = 0 ∧ parseOccupancyRate (.jstr ("")) = 0 ∧
     parseOccupancyRate (.jstr ("85%")) = 0.85 ∧ parseOccupancyRate (.jnum 0.85) = 0.85 ∧
     parseOccupancyRate (.jnum 85) = 0.85) ∧
    (∀ q : ℚ, 0 ≤ q → q ≤ 100 →
      0 ≤ parseOccupancyRate (.jnum q) ∧ parseOccupancyRate (.jnum q) ≤ 1) ∧
    (∀ (s : String) (v : ℚ), firstNumToken s = some v → v ≤ 100 →
      0 ≤ parseOccupancyRate (.jstr s) ∧ parseOccupancyRate (.jstr s) ≤ 1) ∧
    (∀ s : String, firstNumToken s = none → parseOccupancyRate (.jstr s) = 0) := by
  refine ⟨⟨?_, ?_, ?_, ?_, ?_, ?_, ?_⟩, ?_, ?_, ?_⟩
  · with_unfolding_all rfl
  · with_unfolding_all rfl
  · with_unfolding_all rfl
  · with_unfolding_all rfl
  · with_unfolding_all rfl
  · with_unfolding_all rfl
  · with_unfolding_all rfl
  · intro q h0 h100
    simp only [parseOccupancyRate]
    split
    · constructor
      · positivity
      · linarith
    · constructor
      · exact h0
      · linarith [not_lt.mp (by assumption : ¬ q > 1)]
  · intro s v h h100
    rw [parseOccupancyRate_token s v h]
    have hv := firstNumToken_nonneg s v h
    constructor
    · positivity
    · linarith
  · intro s h
    simp only [parseOccupancyRate]
    split
    · rfl
    · rw [h]

/-- C3, witness for the amended theorem. -/
theorem c3_normalizer_amended_witness :
    0 ≤ parseOccupancyRate (.jnum 50) ∧ parseOccupancyRate (.jnum 50) ≤ 1 :=
  c3_normalizer_amended.2.1 50 (by norm_num) (by norm_num)

/-! ## Claim C4 -/

/-- C4, counterexample: the claim says a string value not greater than 1
is taken as an already-decimal fraction unchanged, with
`normalize("0.5") == 0.5`; the code divides every string token by 100,
giving 0.005. -/
theorem c4_string_parsing_counterexample :
    parseOccupancyRate (.jstr ("0.5")) = 1 / 200 ∧
    ¬ parseOccupancyRate (.jstr ("0.5")) = 1 / 2 := by
  constructor
  · with_unfolding_all rfl
  · rw [show parseOccupancyRate (.jstr ("0.5")) = 1 / 200 from by with_unfolding_all rfl]
    norm_num

/-- C4, amended: the numeric token of a string is always divided by 100,
whatever its magnitude; the greater-than-1 heuristic applies only to
number inputs. -/
theorem c4_string_parsing_amended :
    (∀ (s : String) (v : ℚ), firstNumToken s = some v →
      parseOccupancyRate (.jstr s) = v / 100) ∧
    (∀ q : ℚ, parseOccupancyRate (.jnum q) = if q > 1 then q / 100 else q) := by
  constructor
  · exact parseOccupancyRate_token
  · intro q
    rfl

/-- C4, witness for the amended theorem. -/
theorem c4_string_parsing_amended_witness :
    parseOccupancyRate (.jstr ("85%")) = 85 / 100 :=
  c4_string_parsing_amended.1 ("85%") 85 (by with_unfolding_all rfl)

/-! ## Claim C5 -/

/-- C5, counterexample: the strategy module's `saveChanges` merges the
current run into the on-disk ledger and writes it without any trimming,
so a persist through that path leaves 1001 entries on disk. -/
theorem c5_ledger_trim_counterexample :
    (saveChangesRun ⟨[], [e0]⟩ (some (.single ⟨0, List.replicate 1000 e0⟩)) true 0).1 =
      .mainWritten ⟨0, e0 :: List.replicate 1000 e0⟩ ∧
    (e0 :: List.replicate 1000 e0).length = 1001 ∧
    ¬ (e0 :: List.replicate 1000 e0).length ≤ 1000 := by
  refine ⟨rfl, ?_, ?_⟩
  · simp
  · simp

/-- C5, amended: the `saveChangesToLog` persist path of the bot entry
point does trim: the written ledger keeps at most 1000 entries, namely the
newest 1000 of the merged most-recent-first list, and stamps `lastRun`
with today; the strategy module's `saveChanges` path performs no trim, so
the ledger can grow beyond 1000 entries through it. -/
theorem c5_ledger_trim_amended (existing : Option LedgerData)
    (newChanges : List ChangeEntry) (today : ℤ) :
    (saveChangesToLogData existing newChanges today).changes.length ≤ 1000 ∧
    (saveChangesToLogData existing newChanges today).changes =
      (newChanges ++ ledgerChanges existing).take 1000 ∧
    (saveChangesToLogData existing newChanges today).lastRun = today := by
  have hch : (saveChangesToLogData existing newChanges today).changes =
      (if (newChanges ++ ledgerChanges existing).length > 1000 then
        (newChanges ++ ledgerChanges existing).take 1000
      else newChanges ++ ledgerChanges existing) := rfl
  refine ⟨?_, ?_, rfl⟩
  · rw [hch]
    split
    · rw [List.length_take]
      exact min_le_left _ _
    · rename_i hlen
      exact le_of_not_lt hlen
  · rw [hch]
    split
    · rfl
    · rename_i hlen
      exact (List.take_of_length_le (le_of_not_lt hlen)).symm

/-! ## Claim C8 -/

/-- C8, counterexample: a write failure on the strategy module's
`saveChanges` path is caught but answered with no backup write at all —
the outcome is `noWrite`, not a dated backup of the current run's
changes. -/
theorem c8_backup_counterexample :
    (saveChangesRun ⟨[], [e0]⟩ (some (.single ⟨5, []⟩)) false 7).1 = .noWrite ∧
    isBackup (saveChangesRun ⟨[], [e0]⟩ (some (.single ⟨5, []⟩)) false 7).1 = false ∧
    (saveChangesRun ⟨[], [e0]⟩ (some (.single ⟨5, []⟩)) false 7).2 = ⟨[], [e0]⟩ := by
  exact ⟨rfl, rfl, rfl⟩

/-- C8, amended: only the `saveChangesToLog` persist path falls back to a
dated backup on write failure, and that backup holds exactly the current
run's changes with today's `lastRun`; the strategy module's `saveChanges`
catches a write failure without aborting but writes no backup, leaving
the in-memory buffer intact. -/
theorem c8_backup_amended (existing : Option LedgerData) (newChanges : List ChangeEntry)
    (today : ℤ) (st : StratState) (file : Option LedgerFile) (td : ℤ)
    (hne : ¬ st.currentChanges = []) :
    saveChangesToLogRun existing newChanges today false true =
      .backupWritten ⟨today, newChanges⟩ ∧
    (saveChangesRun st file false td).1 = .noWrite ∧
    (saveChangesRun st file false td).2 = st := by
  refine ⟨rfl, ?_, ?_⟩
  · simp only [saveChangesRun, if_neg hne]
    rfl
  · simp only [saveChangesRun, if_neg hne]
    rfl

/-- C8, witness for the amended theorem. -/
theorem c8_backup_amended_witness :
    saveChangesToLogRun none [e0] 7 false true = .backupWritten ⟨7, [e0]⟩ ∧
    (saveChangesRun ⟨[], [e0]⟩ none false 7).1 = .noWrite ∧
    (saveChangesRun ⟨[], [e0]⟩ none false 7).2 = ⟨[], [e0]⟩ :=
  c8_backup_amended none [e0] 7 ⟨[], [e0]⟩ none 7 (by simp)

/-! ## State lemmas -/

theorem lookup_updateStats (f : PropertyStats → PropertyStats) (url : String) :
    ∀ l : List (String × PropertyStats),
      lookupStats url (updateStats f url l) = (lookupStats url l).map f := by
  intro l
  induction l with
  | nil => rfl
  | cons kv rest ih =>
    by_cases hkv : kv.1 = url
    · simp [updateStats, lookupStats, hkv]
    · simp only [updateStats, lookupStats, if_neg hkv]
      exact ih

theorem lookup_updateStats_none (f : PropertyStats → PropertyStats) (url : String) :
    ∀ l : List (String × PropertyStats),
      lookupStats url l = none → updateStats f url l = l := by
  intro l
  induction l with
  | nil => intro _; rfl
  | cons kv rest ih =>
    intro h
    by_cases hkv : kv.1 = url
    · simp only [lookupStats, if_pos hkv] at h
      exact Option.noConfusion h
    · simp only [lookupStats, if_neg hkv] at h
      simp only [updateStats, if_neg hkv]
      rw [ih h]

theorem findStats_setLastOsc (st : StratState) (url : String) (p : ℚ) :
    findStats (setLastOsc st url p) url =
      (findStats st url).map (fun s => { s with lastOscillationDirection := some p }) :=
  lookup_updateStats _ _ _

theorem setLastOsc_of_none (st : StratState) (url : String) (p : ℚ)
    (h : findStats st url = none) : setLastOsc st url p = st := by
  unfold setLastOsc
  rw [lookup_updateStats_none _ _ _ h]

theorem setLastOsc_currentChanges (st : StratState) (url : String) (p : ℚ) :
    (setLastOsc st url p).currentChanges = st.currentChanges := rfl

theorem recordAdjustment_of_none (env : Env) (ptype : PriceType) (strat : String)
    (pct price adj : ℚ) (occ : OccInputs) (url : String) (st : StratState)
    (h : findStats st url = none) :
    recordAdjustment env ptype strat pct price adj occ url st = st := by
  unfold recordAdjustment
  rw [h]

theorem findStats_recordAdjustment (env : Env) (ptype : PriceType) (strat : String)
    (pct price adj : ℚ) (occ : OccInputs) (url : String) (st : StratState)
    (s0 : PropertyStats) (h : findStats st url = some s0) :
    findStats (recordAdjustment env ptype strat pct price adj occ url st) url =
      some { s0 with adjustmentHistory := s0.adjustmentHistory ++ [mkAdjRecord env ptype strat pct] } := by
  unfold recordAdjustment
  rw [h]
  show lookupStats url (updateStats _ url st.propertyStats) = _
  rw [lookup_updateStats]
  have h' : lookupStats url st.propertyStats = some s0 := h
  rw [h']
  rfl

theorem recordAdjustment_currentChanges (env : Env) (ptype : PriceType) (strat : String)
    (pct price adj : ℚ) (occ : OccInputs) (url : String) (st : StratState)
    (s0 : PropertyStats) (h : findStats st url = some s0) :
    (recordAdjustment env ptype strat pct price adj occ url st).currentChanges =
      upsertChange url ptype ⟨price, adj⟩ env occ st.currentChanges := by
  unfold recordAdjustment
  rw [h]

theorem upsertChange_min_mem (url : String) (pair : PricePair) (env : Env) (occ : OccInputs) :
    ∀ l : List ChangeEntry, ∃ e, e ∈ upsertChange url .min pair env occ l ∧
      e.url = url ∧ e.minPrice = some pair := by
  intro l
  induction l with
  | nil =>
    refine ⟨newChangeEntry url env occ .min pair, ?_, rfl, rfl⟩
    simp [upsertChange]
  | cons e rest ih =>
    by_cases he : e.url = url
    · refine ⟨setPriceField .min pair e, ?_, he, rfl⟩
      simp [upsertChange, if_pos he]
    · obtain ⟨x, hmem, hu, hm⟩ := ih
      refine ⟨x, ?_, hu, hm⟩
      simp only [upsertChange, if_neg he]
      exact List.mem_cons_of_mem _ hmem

/-! ## Strategy and decision lemmas -/

theorem getPropertyStrategy_mem (cfg : StratConfig) (env : Env) (st : StratState)
    (url : String) (occ : OccInputs) (stats : PropertyStats)
    (h : findStats st url = some stats) :
    getPropertyStrategy cfg env st url occ = "increase" ∨
    getPropertyStrategy cfg env st url occ = "decrease" ∨
    getPropertyStrategy cfg env st url occ = "hold" := by
  simp only [getPropertyStrategy, h]
  repeat' split
  all_goals simp

theorem adjustmentDecision_of_increase (cfg : StratConfig) (env : Env) (st : StratState)
    (url : String) (occ : OccInputs) (ptype : PriceType)
    (hs : getPropertyStrategy cfg env st url occ = "increase") :
    adjustmentDecision cfg env st url occ ptype =
      some ("increase", increaseAdjustment cfg (parseOccupancyRate occ.seven) (thresholdsOf cfg)
        (sevenDayIncreaseOf env ptype st url), st) := by
  simp [adjustmentDecision, hs]

theorem adjustmentDecision_of_decrease (cfg : StratConfig) (env : Env) (st : StratState)
    (url : String) (occ : OccInputs) (ptype : PriceType)
    (hs : getPropertyStrategy cfg env st url occ = "decrease") :
    adjustmentDecision cfg env st url occ ptype =
      some ("decrease", decreaseAdjustment cfg (parseOccupancyRate occ.seven)
        (parseOccupancyRate occ.thirty) (weightedOccOf cfg occ) (thresholdsOf cfg), st) := by
  simp [adjustmentDecision, hs]

theorem adjustmentDecision_of_hold (cfg : StratConfig) (env : Env) (st : StratState)
    (url : String) (occ : OccInputs) (ptype : PriceType)
    (hs : getPropertyStrategy cfg env st url occ = "hold") :
    adjustmentDecision cfg env st url occ ptype =
      (if (thresholdsOf cfg).low ≤ weightedOccOf cfg occ ∧
          weightedOccOf cfg occ ≤ (thresholdsOf cfg).high then
        some ("hold", holdAdjustment cfg env.dayOfWeek (lastOscOf st url)
          (sevenDayIncreaseOf env ptype st url) (weightedOccOf cfg occ) (thresholdsOf cfg),
          setLastOsc st url (holdAdjustment cfg env.dayOfWeek (lastOscOf st url)
            (sevenDayIncreaseOf env ptype st url) (weightedOccOf cfg occ) (thresholdsOf cfg)))
      else
        some ("hold", holdAdjustment cfg env.dayOfWeek (lastOscOf st url)
          (sevenDayIncreaseOf env ptype st url) (weightedOccOf cfg occ) (thresholdsOf cfg), st)) := by
  simp [adjustmentDecision, hs]

theorem adjustmentDecision_ne_none (cfg : StratConfig) (env : Env) (st : StratState)
    (url : String) (occ : OccInputs) (ptype : PriceType) (stats : PropertyStats)
    (h : findStats st url = some stats) :
    adjustmentDecision cfg env st url occ ptype ≠ none := by
  intro hnone
  rcases getPropertyStrategy_mem cfg env st url occ stats h with hs | hs | hs
  · rw [adjustmentDecision_of_increase cfg env st url occ ptype hs] at hnone
    exact Option.noConfusion hnone
  · rw [adjustmentDecision_of_decrease cfg env st url occ ptype hs] at hnone
    exact Option.noConfusion hnone
  · rw [adjustmentDecision_of_hold cfg env st url occ ptype hs] at hnone
    split at hnone <;> exact Option.noConfusion hnone

theorem adjustmentDecision_spec (cfg : StratConfig) (env : Env) (st : StratState)
    (url : String) (occ : OccInputs) (ptype : PriceType)
    (sname : String) (p : ℚ) (stA : StratState)
    (hd : adjustmentDecision cfg env st url occ ptype = some (sname, p, stA)) :
    (sname = "increase" ∧
      p = increaseAdjustment cfg (parseOccupancyRate occ.seven) (thresholdsOf cfg)
            (sevenDayIncreaseOf env ptype st url) ∧
      stA = st) ∨
    (sname = "decrease" ∧
      p = decreaseAdjustment cfg (parseOccupancyRate occ.seven) (parseOccupancyRate occ.thirty)
            (weightedOccOf cfg occ) (thresholdsOf cfg) ∧
      stA = st) ∨
    (sname = "hold" ∧
      p = holdAdjustment cfg env.dayOfWeek (lastOscOf st url)
            (sevenDayIncreaseOf env ptype st url) (weightedOccOf cfg occ) (thresholdsOf cfg) ∧
      ((thresholdsOf cfg).low ≤ weightedOccOf cfg occ ∧ weightedOccOf cfg occ ≤ (thresholdsOf cfg).high →
        stA = setLastOsc st url p) ∧
      (¬ ((thresholdsOf cfg).low ≤ weightedOccOf cfg occ ∧ weightedOccOf cfg occ ≤ (thresholdsOf cfg).high) →
        stA = st)) := by
  simp only [adjustmentDecision] at hd
  split at hd
  · simp only [Option.some.injEq, Prod.mk.injEq] at hd
    exact Or.inl ⟨hd.1.symm, hd.2.1.symm, hd.2.2.symm⟩
  · split at hd
    · simp only [Option.some.injEq, Prod.mk.injEq] at hd
      exact Or.inr (Or.inl ⟨hd.1.symm, hd.2.1.symm, hd.2.2.symm⟩)
    · split at hd
      · split at hd
        · rename_i hrange
          simp only [Option.some.injEq, Prod.mk.injEq] at hd
          refine Or.inr (Or.inr ⟨hd.1.symm, hd.2.1.symm, fun _ => ?_, fun hn => absurd hrange hn⟩)
          rw [← hd.2.2, ← hd.2.1]
        · rename_i hrange
          simp only [Option.some.injEq, Prod.mk.injEq] at hd
          exact Or.inr (Or.inr ⟨hd.1.symm, hd.2.1.symm, fun hc => absurd hc hrange, fun _ => hd.2.2.symm⟩)
      · exact Option.noConfusion hd

theorem clampMin_le (st2 : StratState) (url : String) (adjusted : ℤ)
    (stats2 : PropertyStats) (r : PriceEntry) (rest : List PriceEntry)
    (h2 : findStats st2 url = some stats2) (hp : stats2.priceHistory = r :: rest) :
    clampMin st2 url adjusted .min ≤ (jround (r.basePrice.after * 0.8) : ℚ) := by
  simp only [clampMin, h2, hp]
  split
  · split
    · exact le_refl _
    · rename_i hgt
      exact_mod_cast le_of_not_lt hgt
  · simp at *

/-! ## Claim C1 -/

/-- C1: for any min-price computation on a property whose statistics hold
a prior price-history record, the returned price never exceeds
`round(0.8 * B)` where `B` is the most recently recorded base-price
after-value (the head of `priceHistory` under the most-recent-first
ledger convention); the clamp is the final step of the computation. -/
theorem c1_min_price_floor (cfg : StratConfig) (env : Env) (st : StratState)
    (url : String) (price : ℚ) (occ : OccInputs) (stats : PropertyStats)
    (r : PriceEntry) (rest : List PriceEntry)
    (h : findStats st url = some stats) (hp : stats.priceHistory = r :: rest) :
    (calculateAdjustedPrice cfg env st url price occ .min).1 ≤
      (jround (r.basePrice.after * 0.8) : ℚ) := by
  cases hdec : adjustmentDecision cfg env st url occ .min with
  | none => exact absurd hdec (adjustmentDecision_ne_none cfg env st url occ .min stats h)
  | some x =>
    obtain ⟨sname, p, stA⟩ := x
    have hspec := adjustmentDecision_spec cfg env st url occ .min sname p stA hdec
    have hstA : ∃ sA, findStats stA url = some sA ∧ sA.priceHistory = stats.priceHistory := by
      rcases hspec with ⟨-, -, h3⟩ | ⟨-, -, h3⟩ | ⟨-, -, h31, h32⟩
      · exact ⟨stats, h3 ▸ h, rfl⟩
      · exact ⟨stats, h3 ▸ h, rfl⟩
      · by_cases hc : (thresholdsOf cfg).low ≤ weightedOccOf cfg occ ∧
            weightedOccOf cfg occ ≤ (thresholdsOf cfg).high
        · refine ⟨{ stats with lastOscillationDirection := some p }, ?_, rfl⟩
          rw [h31 hc, findStats_setLastOsc, h]
          rfl
        · exact ⟨stats, (h32 hc) ▸ h, rfl⟩
    obtain ⟨sA, hA, hAp⟩ := hstA
    have h2 := findStats_recordAdjustment env .min sname p price
      ((jround (price + price * (p / 100)) : ℤ) : ℚ) occ url stA sA hA
    simp only [calculateAdjustedPrice, hdec]
    exact clampMin_le _ url _ _ r rest h2 (by rw [← hp, ← hAp])

/-- C1, witness: base price 100 on record, current min price 95, strong
occupancy produces a 3% increase to 98, clamped down to 80. -/
theorem c1_min_price_floor_witness :
    (calculateAdjustedPrice cfgA envT stWithPrice uProp 95 occHigh .min).1 ≤
      (jround (priceE.basePrice.after * 0.8) : ℚ) :=
  c1_min_price_floor cfgA envT stWithPrice uProp 95 occHigh statsWithPrice priceE []
    (by with_unfolding_all rfl) (by with_unfolding_all rfl)

/-! ## Claim C10 -/

/-- C10: a `calculateAdjustedPrice` call on a property with no entry in
the `propertyStats` map leaves the engine state completely unchanged (no
adjustment record, no change-buffer entry, no oscillation direction) and
returns the computed rounded adjusted price with no floor clamp applied
(or the current price untouched on the `default` strategy branch). -/
theorem c10_cold_start_frame (cfg : StratConfig) (env : Env) (st : StratState)
    (url : String) (price : ℚ) (occ : OccInputs) (ptype : PriceType)
    (h : findStats st url = none) :
    (calculateAdjustedPrice cfg env st url price occ ptype).2 = st ∧
    (calculateAdjustedPrice cfg env st url price occ ptype).1 =
      (match adjustmentDecision cfg env st url occ ptype with
       | none => price
       | some (_, pct, _) => ((jround (price + price * (pct / 100)) : ℤ) : ℚ)) := by
  cases hdec : adjustmentDecision cfg env st url occ ptype with
  | none =>
    have hcalc : calculateAdjustedPrice cfg env st url price occ ptype = (price, st) := by
      unfold calculateAdjustedPrice
      rw [hdec]
    rw [hcalc]
    exact ⟨rfl, rfl⟩
  | some x =>
    obtain ⟨sname, p, stA⟩ := x
    have hspec := adjustmentDecision_spec cfg env st url occ ptype sname p stA hdec
    have hstA : stA = st := by
      rcases hspec with ⟨-, -, h3⟩ | ⟨-, -, h3⟩ | ⟨-, -, h31, h32⟩
      · exact h3
      · exact h3
      · by_cases hc : (thresholdsOf cfg).low ≤ weightedOccOf cfg occ ∧
            weightedOccOf cfg occ ≤ (thresholdsOf cfg).high
        · rw [h31 hc]
          exact setLastOsc_of_none st url p h
        · exact h32 hc
    have hrec : recordAdjustment env ptype sname p price
        ((jround (price + price * (p / 100)) : ℤ) : ℚ) occ url stA = st := by
      rw [hstA]
      exact recordAdjustment_of_none env ptype sname p price _ occ url st h
    have hcalc : calculateAdjustedPrice cfg env st url price occ ptype =
        (clampMin st url (jround (price + price * (p / 100))) ptype, st) := by
      unfold calculateAdjustedPrice
      rw [hdec]
      show (clampMin (recordAdjustment env ptype sname p price _ occ url stA) url _ ptype,
        recordAdjustment env ptype sname p price _ occ url stA) = _
      rw [hrec]
    rw [hcalc]
    refine ⟨rfl, ?_⟩
    show clampMin st url (jround (price + price * (p / 100))) ptype =
      ((jround (price + price * (p / 100)) : ℤ) : ℚ)
    simp only [clampMin, h]
    split <;> rfl

/-- C10, witness: a cold-start call at healthy occupancy leaves the empty
state untouched and returns the rounded oscillated price. -/
theorem c10_cold_start_frame_witness :
    (calculateAdjustedPrice cfgA envT emptyState uProp 100 occMid .min).2 = emptyState ∧
    (calculateAdjustedPrice cfgA envT emptyState uProp 100 occMid .min).1 =
      (match adjustmentDecision cfgA envT emptyState uProp occMid .min with
       | none => 100
       | some (_, pct, _) => ((jround (100 + 100 * (pct / 100)) : ℤ) : ℚ)) :=
  c10_cold_start_frame cfgA envT emptyState uProp 100 occMid .min (by with_unfolding_all rfl)

/-! ## Claim C6 -/

theorem guardStep_cd_le (env : Env) (a : AdjustmentRecord) (acc : GuardAcc) :
    acc.cd ≤ (guardStep env a acc).1.cd := by
  simp only [guardStep]
  repeat' split
  all_goals simp

theorem guardLoop_cd_le (env : Env) :
    ∀ (l : List AdjustmentRecord) (acc : GuardAcc), acc.cd ≤ (guardLoop env l acc).cd := by
  intro l
  induction l with
  | nil => intro acc; exact le_refl _
  | cons a rest ih =>
    intro acc
    simp only [guardLoop]
    split
    · exact le_trans (guardStep_cd_le env a acc) (ih _)
    · exact guardStep_cd_le env a acc

theorem guardStep_decrease (env : Env) (a : AdjustmentRecord) (acc : GuardAcc)
    (hd : a.strategy = "decrease" ∧ (a.minPricePercentChange < 0 ∨ a.basePricePercentChange < 0))
    (hci : acc.ci = 0) :
    (guardStep env a acc).2 = true ∧ (guardStep env a acc).1.ci = 0 ∧
    (guardStep env a acc).1.cd = acc.cd + 1 := by
  have hne : ¬ (a.strategy = "increase" ∧
      (a.minPricePercentChange > 0 ∨ a.basePricePercentChange > 0)) := by
    rintro ⟨h1, -⟩
    rw [hd.1] at h1
    exact absurd h1 (by decide)
  simp only [guardStep, if_neg hne, if_pos hd]
  repeat' split
  all_goals simp_all

theorem guardLoop_cons (env : Env) (a : AdjustmentRecord) (rest : List AdjustmentRecord)
    (acc : GuardAcc) (h : (guardStep env a acc).2 = true) :
    guardLoop env (a :: rest) acc = guardLoop env rest (guardStep env a acc).1 := by
  simp only [guardLoop, h, if_true]

theorem guardLoop_cd_three (env : Env) (c1 c2 c3 : AdjustmentRecord)
    (tail : List AdjustmentRecord)
    (h1 : c1.strategy = "decrease" ∧ (c1.minPricePercentChange < 0 ∨ c1.basePricePercentChange < 0))
    (h2 : c2.strategy = "decrease" ∧ (c2.minPricePercentChange < 0 ∨ c2.basePricePercentChange < 0))
    (h3 : c3.strategy = "decrease" ∧ (c3.minPricePercentChange < 0 ∨ c3.basePricePercentChange < 0)) :
    3 ≤ (guardLoop env (c1 :: c2 :: c3 :: tail) ⟨0, 0, 0, 0, 0, 0⟩).cd := by
  have s1 := guardStep_decrease env c1 ⟨0, 0, 0, 0, 0, 0⟩ h1 rfl
  have s2 := guardStep_decrease env c2 (guardStep env c1 ⟨0, 0, 0, 0, 0, 0⟩).1 h2 s1.2.1
  have s3 := guardStep_decrease env c3
    (guardStep env c2 (guardStep env c1 ⟨0, 0, 0, 0, 0, 0⟩).1).1 h3 s2.2.1
  rw [guardLoop_cons env c1 _ _ s1.1, guardLoop_cons env c2 _ _ s2.1,
    guardLoop_cons env c3 _ _ s3.1]
  have hcd : (guardStep env c3
      (guardStep env c2 (guardStep env c1 ⟨0, 0, 0, 0, 0, 0⟩).1).1).1.cd = 3 := by
    rw [s3.2.2, s2.2.2, s1.2.2]
  calc (3 : ℕ) = (guardStep env c3
      (guardStep env c2 (guardStep env c1 ⟨0, 0, 0, 0, 0, 0⟩).1).1).1.cd := hcd.symm
    _ ≤ _ := guardLoop_cd_le env tail _

/-- C6: when a property's adjustment history ends in three (or more)
consecutive decrease adjustments, the next `getPropertyStrategy` call for
that property returns `"hold"` whatever the occupancy inputs are. -/
theorem c6_anti_whiplash (cfg : StratConfig) (env : Env) (st : StratState)
    (url : String) (occ : OccInputs) (stats : PropertyStats)
    (pre : List AdjustmentRecord) (a b c : AdjustmentRecord)
    (h : findStats st url = some stats)
    (hh : stats.adjustmentHistory = pre ++ [a, b, c])
    (ha : a.strategy = "decrease" ∧ (a.minPricePercentChange < 0 ∨ a.basePricePercentChange < 0))
    (hb : b.strategy = "decrease" ∧ (b.minPricePercentChange < 0 ∨ b.basePricePercentChange < 0))
    (hc : c.strategy = "decrease" ∧ (c.minPricePercentChange < 0 ∨ c.basePricePercentChange < 0)) :
    getPropertyStrategy cfg env st url occ = "hold" := by
  have hg : 3 ≤ (guardOf env st url).cd := by
    simp only [guardOf, h]
    rw [hh]
    have hdrop : (pre ++ [a, b, c]).drop ((pre ++ [a, b, c]).length - 7) =
        pre.drop ((pre ++ [a, b, c]).length - 7) ++ [a, b, c] := by
      apply List.drop_append_of_le_length
      simp only [List.length_append, List.length_cons, List.length_nil]
      omega
    rw [hdrop, List.reverse_append]
    show 3 ≤ (guardLoop env (c :: b :: a :: (pre.drop _).reverse) ⟨0, 0, 0, 0, 0, 0⟩).cd
    exact guardLoop_cd_three env c b a _ hc hb ha
  simp only [getPropertyStrategy]
  rw [if_pos (Or.inr (Or.inr hg))]

/-- C6, witness: three recorded −2% decreases force `hold` even at 96%
occupancy. -/
theorem c6_anti_whiplash_witness :
    getPropertyStrategy cfgA envT stThreeDec uProp occHigh = "hold" :=
  c6_anti_whiplash cfgA envT stThreeDec uProp occHigh statsThreeDec [] decRec decRec decRec
    (by with_unfolding_all rfl) (by with_unfolding_all rfl)
    ⟨rfl, Or.inl (by norm_num [decRec])⟩ ⟨rfl, Or.inl (by norm_num [decRec])⟩
    ⟨rfl, Or.inl (by norm_num [decRec])⟩

/-! ## Claim C2 -/

theorem changeToUse_mkAdjRecord (env : Env) (ptype : PriceType) (strat : String) (pct : ℚ) :
    changeToUse ptype (mkAdjRecord env ptype strat pct) = pct := by
  cases ptype <;> simp [changeToUse, mkAdjRecord]

theorem today_in_window (env : Env) : ((env.today : ℤ) : ℚ) ≥ env.now - 7 := by
  unfold Env.today
  have h1 := Int.sub_one_lt_floor env.now
  push_cast at *
  linarith

theorem sevenDayIncrease_append (env : Env) (ptype : PriceType)
    (hist : List AdjustmentRecord) (r : AdjustmentRecord) :
    sevenDayIncrease env ptype (hist ++ [r]) =
      sevenDayIncrease env ptype hist + sevenDayContrib env ptype r := by
  unfold sevenDayIncrease
  rw [List.map_append, List.sum_append]
  simp

theorem sevenDayContrib_mkAdjRecord (env : Env) (ptype : PriceType) (strat : String) (pct : ℚ) :
    sevenDayContrib env ptype (mkAdjRecord env ptype strat pct) =
      if pct > 0 then pct else 0 := by
  unfold sevenDayContrib
  rw [changeToUse_mkAdjRecord]
  exact if_pos (today_in_window env)

theorem increaseAdjustment_le (cfg : StratConfig) (o7 : ℚ) (th : Thresholds) (s : ℚ)
    (hp : 0 < increaseAdjustment cfg o7 th s) :
    s + increaseAdjustment cfg o7 th s ≤ 5 := by
  revert hp
  simp only [increaseAdjustment]
  split
  · split
    · intro hp
      linarith
    · intro hp
      rename_i hgt hn1
      rcases le_or_lt (5 - s) 0 with hle | hlt
      · rw [max_eq_left hle] at hn1 hp ⊢
        linarith
      · rw [max_eq_right (le_of_lt hlt)] at hn1 hp ⊢
        linarith
  · intro hp
    rename_i hng
    linarith [not_lt.mp hng]

theorem increaseAdjustment_of_cap (cfg : StratConfig) (o7 : ℚ) (th : Thresholds) (s : ℚ)
    (hc : s + increaseProposed cfg o7 th > 5) :
    increaseAdjustment cfg o7 th s =
      if max 0 (5 - s) < 1 then -1 else max 0 (5 - s) := by
  unfold increaseAdjustment
  rw [if_pos hc]

/-- C2, counterexample: for a property with no `propertyStats` entry
(cold start) nothing is recorded and the trailing-7-day sum stays 0, so
two consecutive increase calls in the same window each apply +4.5%,
summing to 9% — the 5% rate cap does not hold there. -/
theorem c2_rate_cap_counterexample :
    adjustmentDecision cfgB envT emptyState uProp occHigh .min =
      some ("increase", 9 / 2, emptyState) ∧
    (calculateAdjustedPrice cfgB envT emptyState uProp 100 occHigh .min).2 = emptyState ∧
    ¬ ((9 : ℚ) / 2 + 9 / 2 ≤ 5) := by
  refine ⟨by with_unfolding_all rfl, by with_unfolding_all rfl, by norm_num⟩

/-- C2, amended: for a property that has an entry in the `propertyStats`
map, an increase-strategy call never applies a positive percentage that
would push the trailing-7-day positive sum (for its price type) above 5;
when the sum plus the proposed magnitude exceeds 5 the applied percentage
is `max 0 (5 − sum)`, replaced by −1 when below 1; and the call preserves
`sum ≤ 5`.  (On a cold-start property nothing is recorded and repeated
increases are not capped cumulatively, so the unrestricted claim fails.) -/
theorem c2_rate_cap_amended (cfg : StratConfig) (env : Env) (st : StratState)
    (url : String) (occ : OccInputs) (ptype : PriceType)
    (stats : PropertyStats) (pct : ℚ) (st1 : StratState)
    (price : ℚ) (stats2 : PropertyStats)
    (h : findStats st url = some stats)
    (hd : adjustmentDecision cfg env st url occ ptype = some ("increase", pct, st1))
    (h2 : findStats (calculateAdjustedPrice cfg env st url price occ ptype).2 url = some stats2) :
    (0 < pct → sevenDayIncrease env ptype stats.adjustmentHistory + pct ≤ 5) ∧
    (sevenDayIncrease env ptype stats.adjustmentHistory +
        increaseProposed cfg (parseOccupancyRate occ.seven) (thresholdsOf cfg) > 5 →
      pct = if max 0 (5 - sevenDayIncrease env ptype stats.adjustmentHistory) < 1 then -1
            else max 0 (5 - sevenDayIncrease env ptype stats.adjustmentHistory)) ∧
    (sevenDayIncrease env ptype stats.adjustmentHistory ≤ 5 →
      sevenDayIncrease env ptype stats2.adjustmentHistory ≤ 5) := by
  have hspec := adjustmentDecision_spec cfg env st url occ ptype _ pct st1 hd
  rcases hspec with ⟨-, hp, hstA⟩ | ⟨hfalse, -, -⟩ | ⟨hfalse, -, -⟩
  · have hS : sevenDayIncreaseOf env ptype st url =
        sevenDayIncrease env ptype stats.adjustmentHistory := by
      unfold sevenDayIncreaseOf
      rw [h]
    rw [hS] at hp
    have hcap1 : 0 < pct → sevenDayIncrease env ptype stats.adjustmentHistory + pct ≤ 5 := by
      intro hpos
      rw [hp] at hpos ⊢
      exact increaseAdjustment_le cfg _ _ _ hpos
    refine ⟨hcap1, ?_, ?_⟩
    · intro hc
      rw [hp]
      exact increaseAdjustment_of_cap cfg _ _ _ hc
    · intro hS5
      have hsnd : (calculateAdjustedPrice cfg env st url price occ ptype).2 =
          recordAdjustment env ptype ("increase") pct price
            ((jround (price + price * (pct / 100)) : ℤ) : ℚ) occ url st := by
        unfold calculateAdjustedPrice
        rw [hd, hstA]
      have hfs := findStats_recordAdjustment env ptype ("increase") pct price
        ((jround (price + price * (pct / 100)) : ℤ) : ℚ) occ url st stats h
      rw [hsnd, hfs] at h2
      have hstats2 : stats2 = { stats with adjustmentHistory :=
          stats.adjustmentHistory ++ [mkAdjRecord env ptype ("increase") pct] } :=
        (Option.some.inj h2).symm
      rw [hstats2]
      show sevenDayIncrease env ptype
        (stats.adjustmentHistory ++ [mkAdjRecord env ptype ("increase") pct]) ≤ 5
      rw [sevenDayIncrease_append, sevenDayContrib_mkAdjRecord]
      split
      · rename_i hpos
        exact hcap1 hpos
      · linarith
  · exact absurd hfalse (by decide)
  · exact absurd hfalse (by decide)

/-- C2, witness for the amended theorem: with one tracked property, empty
history and 96% occupancy, the applied +4.5% increase respects the cap. -/
theorem c2_rate_cap_amended_witness :
    sevenDayIncrease envT .min statsEmpty.adjustmentHistory + 9 / 2 ≤ 5 :=
  (c2_rate_cap_amended cfgB envT stOneEmpty uProp occHigh .min statsEmpty (9 / 2) stOneEmpty 100
    ⟨[], [], [⟨20000, "increase", some (9 / 2), 9 / 2, 0⟩], none, none⟩
    (by with_unfolding_all rfl) (by with_unfolding_all rfl)
    (by with_unfolding_all rfl)).1 (by norm_num)

/-! ## Claim C7 -/

theorem holdDir_cases (lastOsc : Option ℚ) : holdDir lastOsc = 1 ∨ holdDir lastOsc = -1 := by
  cases lastOsc with
  | none => exact Or.inl rfl
  | some d =>
    simp only [holdDir]
    split
    · exact Or.inr rfl
    · exact Or.inl rfl

theorem holdDir_of_pos (d : ℚ) (hd : d > 0) : holdDir (some d) = -1 := by
  simp only [holdDir, if_pos hd]

theorem holdDir_of_nonpos (d : ℚ) (hd : ¬ d > 0) : holdDir (some d) = 1 := by
  simp only [holdDir, if_neg hd]

theorem holdMag_pos (cfg : StratConfig) (dw : ℕ) (dir : ℚ)
    (hosc : 0 < cfg.oscillationPercentage) : 0 < holdMag cfg dw dir := by
  unfold holdMag
  split
  · split
    · nlinarith
    · nlinarith
  · exact hosc

theorem holdMag_le (cfg : StratConfig) (dw : ℕ) (dir : ℚ)
    (hosc : 0 < cfg.oscillationPercentage) :
    holdMag cfg dw dir ≤ cfg.oscillationPercentage * 1.2 := by
  unfold holdMag
  split
  · split
    · nlinarith
    · nlinarith
  · nlinarith

theorem holdAdjustment_range_eq (cfg : StratConfig) (dw : ℕ) (lastOsc : Option ℚ)
    (s w : ℚ) (th : Thresholds) (hw : th.low ≤ w ∧ w ≤ th.high) :
    holdAdjustment cfg dw lastOsc s w th =
      (if holdDir lastOsc * holdMag cfg dw (holdDir lastOsc) > 0 ∧
          s + holdDir lastOsc * holdMag cfg dw (holdDir lastOsc) > 4.5 then -1
       else holdDir lastOsc * holdMag cfg dw (holdDir lastOsc)) := by
  simp only [holdAdjustment, if_pos hw]

theorem holdAdjustment_ne (cfg : StratConfig) (dw : ℕ) (lastOsc : Option ℚ) (s w : ℚ)
    (th : Thresholds) (hw : th.low ≤ w ∧ w ≤ th.high) (hosc : 0 < cfg.oscillationPercentage) :
    holdAdjustment cfg dw lastOsc s w th < 0 ∨ 0 < holdAdjustment cfg dw lastOsc s w th := by
  rw [holdAdjustment_range_eq cfg dw lastOsc s w th hw]
  rcases holdDir_cases lastOsc with h1 | h1
  · rw [h1]
    have hm := holdMag_pos cfg dw (1 : ℚ) hosc
    split
    · left; norm_num
    · right; nlinarith
  · rw [h1]
    have hm := holdMag_pos cfg dw (-1 : ℚ) hosc
    split
    · left; norm_num
    · left; nlinarith

theorem holdAdjustment_neg_of_pos (cfg : StratConfig) (dw : ℕ) (d s w : ℚ) (th : Thresholds)
    (hw : th.low ≤ w ∧ w ≤ th.high) (hosc : 0 < cfg.oscillationPercentage) (hdp : d > 0) :
    holdAdjustment cfg dw (some d) s w th < 0 := by
  rw [holdAdjustment_range_eq cfg dw (some d) s w th hw, holdDir_of_pos d hdp]
  have hm := holdMag_pos cfg dw (-1 : ℚ) hosc
  split
  · norm_num
  · nlinarith

theorem holdAdjustment_pos_of_nonpos (cfg : StratConfig) (dw : ℕ) (d s w : ℚ) (th : Thresholds)
    (hw : th.low ≤ w ∧ w ≤ th.high) (hosc : 0 < cfg.oscillationPercentage)
    (hdp : ¬ d > 0) (hcap : s + cfg.oscillationPercentage * 1.2 ≤ 4.5) :
    0 < holdAdjustment cfg dw (some d) s w th := by
  rw [holdAdjustment_range_eq cfg dw (some d) s w th hw, holdDir_of_nonpos d hdp]
  have hm := holdMag_pos cfg dw (1 : ℚ) hosc
  have hle := holdMag_le cfg dw (1 : ℚ) hosc
  split
  · rename_i hcc
    exfalso
    nlinarith [hcc.2]
  · nlinarith

/-- C7, counterexample: for a property with no `propertyStats` entry the
oscillation direction is never stored, so every hold-oscillation call
behaves like the first one and applies the default upward +1%; two
consecutive calls produce the same sign, not opposite signs. -/
theorem c7_oscillation_counterexample :
    adjustmentDecision cfgA envT emptyState uProp occMid .min =
      some ("hold", 1, emptyState) ∧
    (calculateAdjustedPrice cfgA envT emptyState uProp 100 occMid .min).2 = emptyState ∧
    ¬ ((1 : ℚ) * 1 < 0) := by
  refine ⟨by with_unfolding_all rfl, by with_unfolding_all rfl, by norm_num⟩

/-- C7, amended: for a property that has an entry in the `propertyStats`
map, with a positive configured oscillation percentage, two consecutive
hold-oscillation calls (weighted occupancy inside `[low, high]` both
times, and the trailing-7-day 4.5% cap unable to interfere on the second
call) produce adjustment percentages of opposite sign, the direction
defaulting to positive on a first call.  (Without a stats entry the
direction is never stored and consecutive calls repeat the same sign.) -/
theorem c7_oscillation_amended (cfg : StratConfig) (env1 env2 : Env) (st : StratState)
    (url : String) (occ1 occ2 : OccInputs) (ptype : PriceType) (price1 : ℚ)
    (stats stats1 : PropertyStats) (p1 p2 : ℚ) (stA stB : StratState)
    (h : findStats st url = some stats)
    (hw1 : (thresholdsOf cfg).low ≤ weightedOccOf cfg occ1 ∧
      weightedOccOf cfg occ1 ≤ (thresholdsOf cfg).high)
    (hd1 : adjustmentDecision cfg env1 st url occ1 ptype = some ("hold", p1, stA))
    (hst1 : findStats (calculateAdjustedPrice cfg env1 st url price1 occ1 ptype).2 url =
      some stats1)
    (hw2 : (thresholdsOf cfg).low ≤ weightedOccOf cfg occ2 ∧
      weightedOccOf cfg occ2 ≤ (thresholdsOf cfg).high)
    (hd2 : adjustmentDecision cfg env2 (calculateAdjustedPrice cfg env1 st url price1 occ1 ptype).2
      url occ2 ptype = some ("hold", p2, stB))
    (hosc : 0 < cfg.oscillationPercentage)
    (hcap : sevenDayIncrease env2 ptype stats1.adjustmentHistory +
      cfg.oscillationPercentage * 1.2 ≤ 4.5) :
    p1 * p2 < 0 := by
  have hst1c := hst1
  have hspec1 := adjustmentDecision_spec cfg env1 st url occ1 ptype _ p1 stA hd1
  rcases hspec1 with ⟨hf, -, -⟩ | ⟨hf, -, -⟩ | ⟨-, hp1, h31, -⟩
  · exact absurd hf (by decide)
  · exact absurd hf (by decide)
  have hstAeq := h31 hw1
  have hsnd : (calculateAdjustedPrice cfg env1 st url price1 occ1 ptype).2 =
      recordAdjustment env1 ptype ("hold") p1 price1
        ((jround (price1 + price1 * (p1 / 100)) : ℤ) : ℚ) occ1 url stA := by
    unfold calculateAdjustedPrice
    rw [hd1]
  have hfsA : findStats stA url =
      some { stats with lastOscillationDirection := some p1 } := by
    rw [hstAeq, findStats_setLastOsc, h]
    rfl
  have hfs1 := findStats_recordAdjustment env1 ptype ("hold") p1 price1
    ((jround (price1 + price1 * (p1 / 100)) : ℤ) : ℚ) occ1 url stA _ hfsA
  rw [hsnd, hfs1] at hst1
  have hstats1 := (Option.some.inj hst1).symm
  have hspec2 := adjustmentDecision_spec cfg env2 _ url occ2 ptype _ p2 stB hd2
  rcases hspec2 with ⟨hf, -, -⟩ | ⟨hf, -, -⟩ | ⟨-, hp2, -, -⟩
  · exact absurd hf (by decide)
  · exact absurd hf (by decide)
  have hlast2 : lastOscOf (calculateAdjustedPrice cfg env1 st url price1 occ1 ptype).2 url =
      some p1 := by
    unfold lastOscOf
    rw [hst1c, hstats1]
  have hS2 : sevenDayIncreaseOf env2 ptype
      (calculateAdjustedPrice cfg env1 st url price1 occ1 ptype).2 url =
      sevenDayIncrease env2 ptype stats1.adjustmentHistory := by
    unfold sevenDayIncreaseOf
    rw [hst1c]
  rw [hlast2, hS2] at hp2
  have hsign1 : p1 < 0 ∨ 0 < p1 := by
    rw [hp1]
    exact holdAdjustment_ne cfg env1.dayOfWeek _ _ _ _ hw1 hosc
  rcases hsign1 with hneg | hpos
  · have hp2pos : 0 < p2 := by
      rw [hp2]
      exact holdAdjustment_pos_of_nonpos cfg env2.dayOfWeek p1 _ _ _ hw2 hosc
        (not_lt.mpr (le_of_lt hneg)) hcap
    exact mul_neg_of_neg_of_pos hneg hp2pos
  · have hp2neg : p2 < 0 := by
      rw [hp2]
      exact holdAdjustment_neg_of_pos cfg env2.dayOfWeek p1 _ _ _ hw2 hosc hpos
    exact mul_neg_of_pos_of_neg hpos hp2neg

/-- C7, witness for the amended theorem: a tracked property at 50%
weighted occupancy oscillates +1% on the first call and −1% on the
second. -/
theorem c7_oscillation_amended_witness : (1 : ℚ) * (-1) < 0 :=
  c7_oscillation_amended cfgA envT envT stOneEmpty uProp occMid occMid .min 100
    statsEmpty ⟨[], [], [⟨20000, "hold", some 1, 1, 0⟩], some 1, none⟩ 1 (-1)
    (setLastOsc stOneEmpty uProp 1)
    (setLastOsc (calculateAdjustedPrice cfgA envT stOneEmpty uProp 100 occMid .min).2 uProp (-1))
    (by with_unfolding_all rfl)
    (by with_unfolding_all decide)
    (by with_unfolding_all rfl)
    (by with_unfolding_all rfl)
    (by with_unfolding_all decide)
    (by with_unfolding_all rfl)
    (by with_unfolding_all decide)
    (by with_unfolding_all decide)

/-! ## Claim C9 -/

theorem clampMin_fired (st2 : StratState) (url : String) (adjusted : ℤ)
    (stats2 : PropertyStats) (r : PriceEntry) (rest : List PriceEntry)
    (h2 : findStats st2 url = some stats2) (hp : stats2.priceHistory = r :: rest)
    (hgt : adjusted > jround (r.basePrice.after * 0.8)) :
    clampMin st2 url adjusted .min = (jround (r.basePrice.after * 0.8) : ℚ) := by
  simp [clampMin, h2, hp, hgt]

/-- C9: when the min-price floor clamp fires, the adjustment record
appended to `adjustmentHistory` and the change entry upserted into the
current-run buffer still carry the pre-clamp adjusted price and
percentage, while the caller receives the clamped (different) price. -/
theorem c9_preclamp_recording (cfg : StratConfig) (env : Env) (st : StratState)
    (url : String) (price : ℚ) (occ : OccInputs) (stats : PropertyStats)
    (r : PriceEntry) (rest : List PriceEntry)
    (sname : String) (pct : ℚ) (stA : StratState)
    (h : findStats st url = some stats)
    (hp : stats.priceHistory = r :: rest)
    (hd : adjustmentDecision cfg env st url occ .min = some (sname, pct, stA))
    (hclamp : jround (price + price * (pct / 100)) > jround (r.basePrice.after * 0.8)) :
    (calculateAdjustedPrice cfg env st url price occ .min).1 =
      (jround (r.basePrice.after * 0.8) : ℚ) ∧
    ¬ (calculateAdjustedPrice cfg env st url price occ .min).1 =
      ((jround (price + price * (pct / 100)) : ℤ) : ℚ) ∧
    (∃ stats2, findStats (calculateAdjustedPrice cfg env st url price occ .min).2 url =
        some stats2 ∧
      stats2.adjustmentHistory = stats.adjustmentHistory ++ [mkAdjRecord env .min sname pct]) ∧
    (∃ e, e ∈ (calculateAdjustedPrice cfg env st url price occ .min).2.currentChanges ∧
      e.url = url ∧
      e.minPrice = some ⟨price, ((jround (price + price * (pct / 100)) : ℤ) : ℚ)⟩) := by
  have hstA : ∃ sA, findStats stA url = some sA ∧ sA.priceHistory = stats.priceHistory ∧
      sA.adjustmentHistory = stats.adjustmentHistory ∧
      stA.currentChanges = st.currentChanges := by
    have hspec := adjustmentDecision_spec cfg env st url occ .min sname pct stA hd
    rcases hspec with ⟨-, -, h3⟩ | ⟨-, -, h3⟩ | ⟨-, -, h31, h32⟩
    · exact ⟨stats, h3 ▸ h, rfl, rfl, by rw [h3]⟩
    · exact ⟨stats, h3 ▸ h, rfl, rfl, by rw [h3]⟩
    · by_cases hc : (thresholdsOf cfg).low ≤ weightedOccOf cfg occ ∧
          weightedOccOf cfg occ ≤ (thresholdsOf cfg).high
      · refine ⟨{ stats with lastOscillationDirection := some pct }, ?_, rfl, rfl, ?_⟩
        · rw [h31 hc, findStats_setLastOsc, h]
          rfl
        · rw [h31 hc]
          rfl
      · exact ⟨stats, (h32 hc) ▸ h, rfl, rfl, by rw [h32 hc]⟩
  obtain ⟨sA, hA, hAp, hAh, hAc⟩ := hstA
  have hsnd : (calculateAdjustedPrice cfg env st url price occ .min).2 =
      recordAdjustment env .min sname pct price
        ((jround (price + price * (pct / 100)) : ℤ) : ℚ) occ url stA := by
    unfold calculateAdjustedPrice
    rw [hd]
  have hfst : (calculateAdjustedPrice cfg env st url price occ .min).1 =
      clampMin (recordAdjustment env .min sname pct price
          ((jround (price + price * (pct / 100)) : ℤ) : ℚ) occ url stA) url
        (jround (price + price * (pct / 100))) .min := by
    unfold calculateAdjustedPrice
    rw [hd]
  have hfs2 := findStats_recordAdjustment env .min sname pct price
    ((jround (price + price * (pct / 100)) : ℤ) : ℚ) occ url stA sA hA
  have hp2 : ({ sA with adjustmentHistory :=
      sA.adjustmentHistory ++ [mkAdjRecord env .min sname pct] } : PropertyStats).priceHistory =
      r :: rest := by
    show sA.priceHistory = r :: rest
    rw [hAp, hp]
  have hc1 : (calculateAdjustedPrice cfg env st url price occ .min).1 =
      (jround (r.basePrice.after * 0.8) : ℚ) := by
    rw [hfst]
    exact clampMin_fired _ url _ _ r rest hfs2 hp2 hclamp
  refine ⟨hc1, ?_, ?_, ?_⟩
  · rw [hc1]
    intro heq
    have hint : jround (r.basePrice.after * 0.8) = jround (price + price * (pct / 100)) :=
      Int.cast_injective heq
    omega
  · refine ⟨{ sA with adjustmentHistory :=
      sA.adjustmentHistory ++ [mkAdjRecord env .min sname pct] }, ?_, ?_⟩
    · rw [hsnd]
      exact hfs2
    · show sA.adjustmentHistory ++ [mkAdjRecord env .min sname pct] = _
      rw [hAh]
  · obtain ⟨e, hmem, hu, hm⟩ := upsertChange_min_mem url
      ⟨price, ((jround (price + price * (pct / 100)) : ℤ) : ℚ)⟩ env occ st.currentChanges
    refine ⟨e, ?_, hu, hm⟩
    have hcc : (calculateAdjustedPrice cfg env st url price occ .min).2.currentChanges =
        upsertChange url .min ⟨price, ((jround (price + price * (pct / 100)) : ℤ) : ℚ)⟩
          env occ st.currentChanges := by
      rw [hsnd, recordAdjustment_currentChanges env .min sname pct price
        ((jround (price + price * (pct / 100)) : ℤ) : ℚ) occ url stA sA hA, hAc]
    rw [hcc]
    exact hmem

/-- C9, witness: with a recorded base price of 100 and current min price
95, a +3% increase rounds to 98, the clamp returns 80, and the recorded
after-value stays 98. -/
theorem c9_preclamp_recording_witness :
    (calculateAdjustedPrice cfgA envT stWithPrice uProp 95 occHigh .min).1 =
      (jround (priceE.basePrice.after * 0.8) : ℚ) :=
  (c9_preclamp_recording cfgA envT stWithPrice uProp 95 occHigh statsWithPrice priceE []
    ("increase") 3 stWithPrice
    (by with_unfolding_all rfl) (by with_unfolding_all rfl)
    (by with_unfolding_all rfl) (by with_unfolding_all decide)).1

end PricelabsAuto
